import Mathlib

/-!
Shallow embedding of the archbloom Bloom-filter family (bloom.c, cbloom.c,
tdbloom.c, tdcbloom.c) and proofs about the claims of its specification.

Machine integers are modelled as naturals with explicit reduction modulo
2^64 exactly where C unsigned arithmetic can wrap.  Byte buffers and
counter/timestamp arrays are modelled as total functions from indices to
naturals; each store mirrors the truncation performed by the C store.
The murmur3 hash is an external primitive in the specification, so every
operation takes the list of 64-bit hash values that
mmh3_64_make_hashes would produce for the element.
-/

namespace ArchBloom

/-- The modulus 2^64 of C size_t and uint64_t arithmetic. -/
def M64 : ℕ := 18446744073709551616

def U8MAX : ℕ := 255
def U16MAX : ℕ := 65535
def U32MAX : ℕ := 4294967295
def U64MAX : ℕ := 18446744073709551615

/-- uint64 addition: wraps modulo 2^64. -/
def add64 (a b : ℕ) : ℕ := (a + b) % M64

/-- uint64 subtraction: wraps modulo 2^64. -/
def sub64 (a b : ℕ) : ℕ := (a % M64 + (M64 - b % M64)) % M64

/-- Slot positions derived from the element hashes: hashes[i] % size. -/
def positions (hs : List ℕ) (size : ℕ) : List ℕ := hs.map (fun h => h % size)

/-! ## Plain Bloom filter (bloom.c) -/

/-- bloom_error_t from bloom.h. -/
inductive BloomError where
  | success | outOfMemory | fopen | fread | fwrite | fstat | invalidFile
  deriving DecidableEq, Repr

/-- struct bloomfilter.  The bitmap is byte-addressed memory. -/
structure Bloomfilter where
  size : ℕ
  hashcount : ℕ
  bitmap_size : ℕ
  expected : ℕ
  insertions : ℕ
  accuracy : ℚ
  bitmap : ℕ → ℕ


/-- calculate_positions: byte index of a bit position. -/
def bytePos (p : ℕ) : ℕ := p / 8

/-- calculate_positions: bit index inside the byte. -/
def bitPos (p : ℕ) : ℕ := p % 8

/-- Test of bloom_lookup / bloom_add: (bitmap[byte] & (1 << bit)) != 0. -/
def bitSet (bitmap : ℕ → ℕ) (p : ℕ) : Bool :=
  (bitmap (bytePos p)) &&& (1 <<< bitPos p) ≠ 0

/-- One iteration of the bloom_add loop: bitmap[byte] |= (1 << bit). -/
def setBit (bitmap : ℕ → ℕ) (p : ℕ) : ℕ → ℕ :=
  Function.update bitmap (bytePos p)
    ((bitmap (bytePos p)) ||| (1 <<< bitPos p))

/-- bloom_add: set the bit of every derived position; count an insertion
when some bit was previously clear. -/
def bloom_add (bf : Bloomfilter) (hs : List ℕ) : Bloomfilter :=
  let ps := positions hs bf.size
  let all_bits_set := ps.all (fun p => bitSet bf.bitmap p)
  { bf with
    bitmap := ps.foldl setBit bf.bitmap
    insertions := if all_bits_set then bf.insertions else bf.insertions + 1 }

/-- bloom_lookup: every derived position must have its bit set. -/
def bloom_lookup (bf : Bloomfilter) (hs : List ℕ) : Bool :=
  (positions hs bf.size).all (fun p => bitSet bf.bitmap p)

theorem bitSet_eq_testBit (m : ℕ → ℕ) (p : ℕ) :
    bitSet m p = Nat.testBit (m (bytePos p)) (bitPos p) := by
  unfold bitSet
  rw [Nat.shiftLeft_eq, one_mul, Nat.and_two_pow]
  have h2 : (2 : ℕ) ^ bitPos p ≠ 0 := pow_ne_zero _ (by norm_num)
  cases h : Nat.testBit (m (bytePos p)) (bitPos p) <;> simp [h, h2]

theorem bitSet_setBit_self (m : ℕ → ℕ) (p : ℕ) : bitSet (setBit m p) p = true := by
  rw [bitSet_eq_testBit]
  unfold setBit
  rw [Function.update_same, Nat.shiftLeft_eq, one_mul, Nat.testBit_lor,
    Nat.testBit_two_pow_self]
  simp

theorem bitSet_setBit_mono (m : ℕ → ℕ) (p q : ℕ) (h : bitSet m q = true) :
    bitSet (setBit m p) q = true := by
  rw [bitSet_eq_testBit] at h ⊢
  unfold setBit
  by_cases hb : bytePos q = bytePos p
  · rw [hb, Function.update_same, Nat.testBit_lor]
    rw [hb] at h
    simp [h]
  · rw [Function.update_noteq hb]
    exact h

theorem bloom_add_bits (m : ℕ → ℕ) (ps : List ℕ) (q : ℕ) (hq : q ∈ ps) :
    bitSet (ps.foldl setBit m) q = true := by
  induction ps generalizing m with
  | nil => cases hq
  | cons p t ih =>
      rcases List.mem_cons.mp hq with rfl | hmem
      · simp only [List.foldl_cons]
        have : ∀ (L : List ℕ) (m : ℕ → ℕ), bitSet m q = true →
            bitSet (L.foldl setBit m) q = true := by
          intro L
          induction L with
          | nil => intro m h; exact h
          | cons x xs ihx => intro m h; exact ihx _ (bitSet_setBit_mono m x q h)
        exact this t _ (bitSet_setBit_self m q)
      · exact ih _ hmem

/-! ## Counting Bloom filter (cbloom.c) -/

/-- cbloom_error_t from cbloom.h. -/
inductive CbloomError where
  | success | outOfMemory | invalidCounterSize | fopen | fwrite | fread
  | fstat | invalidFile
  deriving DecidableEq, Repr

/-- counter_size for the counting filter, including the 4-bit width. -/
inductive CSize4 where
  | c4 | c8 | c16 | c32 | c64
  deriving DecidableEq, Repr

/-- Maximum representable counter value of a width. -/
def csizeMax : CSize4 → ℕ
  | .c4 => 15
  | .c8 => U8MAX
  | .c16 => U16MAX
  | .c32 => U32MAX
  | .c64 => U64MAX

/-- struct cbloomfilter.  For the 4-bit width the countermap is
byte-addressed (two counters per byte, low nibble first); for the other
widths each index holds one counter cell, mirroring the typed C array
accesses. -/
structure Cbloomfilter where
  size : ℕ
  hashcount : ℕ
  countermap_size : ℕ
  expected : ℕ
  accuracy : ℚ
  csize : CSize4
  countermap : ℕ → ℕ


/-- get_counter from cbloom.c. -/
def get_counter (cbf : Cbloomfilter) (position : ℕ) : ℕ :=
  match cbf.csize with
  | .c4 =>
      let byte := cbf.countermap (position / 2)
      if position % 2 = 0 then byte % 16 else byte / 16
  | _ => cbf.countermap position

/-- set_counter from cbloom.c: clamp to the width maximum before the
store except for the 64-bit width, whose store truncates modulo 2^64
(the C uint64 store). -/
def set_counter (cbf : Cbloomfilter) (position value : ℕ) : Cbloomfilter :=
  match cbf.csize with
  | .c4 =>
      let v := if value > 15 then 15 else value
      let byte := cbf.countermap (position / 2)
      let newbyte := if position % 2 = 0
        then (byte / 16 * 16 + v) % 256
        else (byte % 16 + v * 16) % 256
      { cbf with countermap := Function.update cbf.countermap (position / 2) newbyte }
  | .c8 =>
      { cbf with countermap :=
          Function.update cbf.countermap position (if value > U8MAX then U8MAX else value) }
  | .c16 =>
      { cbf with countermap :=
          Function.update cbf.countermap position (if value > U16MAX then U16MAX else value) }
  | .c32 =>
      { cbf with countermap :=
          Function.update cbf.countermap position (if value > U32MAX then U32MAX else value) }
  | .c64 =>
      { cbf with countermap := Function.update cbf.countermap position (value % M64) }

/-- inc_counter_amount: the uint64 sum wraps before set_counter runs. -/
def inc_counter_amount (cbf : Cbloomfilter) (position amount : ℕ) : Cbloomfilter :=
  set_counter cbf position (add64 (get_counter cbf position) amount)

/-- inc_counter. -/
def inc_counter (cbf : Cbloomfilter) (position : ℕ) : Cbloomfilter :=
  inc_counter_amount cbf position 1

/-- dec_counter_amount: floors at zero. -/
def dec_counter_amount (cbf : Cbloomfilter) (position amount : ℕ) : Cbloomfilter :=
  if get_counter cbf position ≤ amount then set_counter cbf position 0
  else set_counter cbf position (get_counter cbf position - amount)

/-- dec_counter. -/
def dec_counter (cbf : Cbloomfilter) (position : ℕ) : Cbloomfilter :=
  dec_counter_amount cbf position 1

/-- cbloom_add: increment the counter of every derived position. -/
def cbloom_add (cbf : Cbloomfilter) (hs : List ℕ) : Cbloomfilter :=
  (positions hs cbf.size).foldl inc_counter cbf

/-- cbloom_lookup: every derived position must have a nonzero counter. -/
def cbloom_lookup (cbf : Cbloomfilter) (hs : List ℕ) : Bool :=
  (positions hs cbf.size).all (fun p => get_counter cbf p ≠ 0)

/-- cbloom_remove: pre-check every derived position and decrement only
when all of them are nonzero (all-or-nothing). -/
def cbloom_remove (cbf : Cbloomfilter) (hs : List ℕ) : Cbloomfilter :=
  let ps := positions hs cbf.size
  if ps.all (fun p => get_counter cbf p ≠ 0)
  then ps.foldl dec_counter cbf
  else cbf

/-- cbloom_count loop with the running minimum accumulator. -/
def cbloom_count_aux (cbf : Cbloomfilter) (acc : ℕ) : List ℕ → ℕ
  | [] => acc
  | p :: t =>
      let c := get_counter cbf p
      cbloom_count_aux cbf (if c < acc then c else acc) t

/-- cbloom_count: running minimum of the counters, starting at UINT64_MAX. -/
def cbloom_count (cbf : Cbloomfilter) (hs : List ℕ) : ℕ :=
  cbloom_count_aux cbf U64MAX (positions hs cbf.size)

/-! ## Time-decaying Bloom filter (tdbloom.c) -/

/-- tdbloom_error_t from tdbloom.h. -/
inductive TdbloomError where
  | success | invalidTimeout | outOfMemory | fopen | fread | fwrite
  | fstat | invalidFile | invalidCounterSize
  deriving DecidableEq, Repr

/-- struct tdbloom.  The filter is an array of timestamp cells; `bytes`
is the storage width of one cell and `max_time` the maximum value it
can hold.  `start_time` is the monotonic time at initialization. -/
structure Tdbloom where
  size : ℕ
  hashcount : ℕ
  timeout : ℕ
  filter_size : ℕ
  start_time : ℕ
  expected : ℕ
  accuracy : ℚ
  max_time : ℕ
  bytes : ℕ
  filter : ℕ → ℕ


/-- The logical timestamp written by tdbloom_add and recomputed by
tdbloom_lookup: ((now - start) % max_time + max_time) % max_time + 1,
evaluated in size_t arithmetic (the sum may wrap modulo 2^64). -/
def tdLogicalTs (now start max_time : ℕ) : ℕ :=
  add64 ((now - start) % max_time) max_time % max_time + 1

/-- The age test shared by tdbloom_lookup / tdbloom_clear_expired and
tdcbloom_lookup: (ts - value + max_time) % max_time, where the
subtraction and the addition are uint64 operations that can wrap. -/
def codeAge (ts value max_time : ℕ) : ℕ :=
  add64 (sub64 ts value) max_time % max_time

/-- tdbloom_add: store the logical timestamp, truncated to the cell
width, at every derived position. -/
def tdbloom_add (tf : Tdbloom) (now : ℕ) (hs : List ℕ) : Tdbloom :=
  let ts := tdLogicalTs now tf.start_time tf.max_time
  let stored := ts % 2 ^ (8 * tf.bytes)
  let f := (positions hs tf.size).foldl (fun m p => Function.update m p stored) tf.filter
  { tf with filter := f }

/-- tdbloom_lookup: returns false outright once the elapsed time since
start_time exceeds max_time; otherwise every derived slot must be
nonzero and unexpired under the modular age test. -/
def tdbloom_lookup (tf : Tdbloom) (now : ℕ) (hs : List ℕ) : Bool :=
  let ts := tdLogicalTs now tf.start_time tf.max_time
  if now - tf.start_time > tf.max_time then false
  else
    (positions hs tf.size).all (fun p =>
      let v := tf.filter p
      ¬(v = 0 ∨ codeAge ts v tf.max_time > tf.timeout))

/-- Control flow of tdbloom_save after a successful fopen.  `ok1` is
whether the struct fwrite succeeded (returned 1) and `ok2` whether the
filter-buffer fwrite succeeded.  The source tests
`fwrite(&tdbf,...) != 1 || fwrite(tdbf.filter,...)`, so the
second write is treated as an error exactly when it succeeds. -/
def tdbloom_save_result (ok1 ok2 : Bool) : TdbloomError :=
  if ¬ok1 ∨ ok2 then TdbloomError.fwrite else TdbloomError.success

/-! ## Time-decaying counting Bloom filter (tdcbloom.c) -/

/-- tdcbloom_error_t from tdcbloom.h. -/
inductive TdcbloomError where
  | success | outOfMemory | invalidCounterSize | invalidTimerSize
  | invalidExpected | invalidAccuracy
  deriving DecidableEq, Repr

/-- counter_size from tdcbloom.h (no 4-bit width here). -/
inductive CSize where
  | c8 | c16 | c32 | c64
  deriving DecidableEq, Repr

/-- timer_size from tdcbloom.h. -/
inductive TSize where
  | t8 | t16 | t32 | t64
  deriving DecidableEq, Repr

/-- Maximum representable value of a tdcbloom counter width. -/
def cMax : CSize → ℕ
  | .c8 => U8MAX
  | .c16 => U16MAX
  | .c32 => U32MAX
  | .c64 => U64MAX

/-- max_time chosen by tdcbloom_init for a timer width. -/
def tMax : TSize → ℕ
  | .t8 => U8MAX
  | .t16 => U16MAX
  | .t32 => U32MAX
  | .t64 => U64MAX

/-- Storage modulus of a timer width (the uintN store truncates). -/
def tMod : TSize → ℕ
  | .t8 => 256
  | .t16 => 65536
  | .t32 => 4294967296
  | .t64 => M64

/-- struct tdcbloom.  Each entry is a (counter, timestamp) pair; the
two components are modelled as separate cell arrays, matching the
disjoint byte ranges the C code addresses inside one entry. -/
structure Tdcbloom where
  size : ℕ
  start_time : ℕ
  timeout : ℕ
  max_time : ℕ
  hashcount : ℕ
  csize : CSize
  tsize : TSize
  counters : ℕ → ℕ
  timers : ℕ → ℕ


/-- increment_counter from tdcbloom.c: saturates at the width maximum. -/
def increment_counter (v : ℕ) (csize : CSize) : ℕ :=
  if v < cMax csize then v + 1 else v

/-- decrement_counter from tdcbloom.c: floors at zero. -/
def decrement_counter (v : ℕ) : ℕ :=
  if 0 < v then v - 1 else v

/-- set_timestamp from tdcbloom.c: ts % UINTN_MAX, then the uintN
store truncates modulo 2^(8·width). -/
def set_timestamp (now : ℕ) (tsize : TSize) : ℕ :=
  now % tMax tsize % tMod tsize

/-- tdcbloom_add: increment the counter and refresh the timestamp at
every derived position. -/
def tdcbloom_add (st : Tdcbloom) (now : ℕ) (hs : List ℕ) : Tdcbloom :=
  (positions hs st.size).foldl
    (fun s p =>
      { s with
        counters := Function.update s.counters p (increment_counter (s.counters p) st.csize)
        timers := Function.update s.timers p (set_timestamp now st.tsize) }) st

/-- tdcbloom_lookup: every derived slot must have a nonzero counter and
pass the modular age test (now - timestamp + max_time) % max_time
≤ timeout, evaluated in uint64 arithmetic. -/
def tdcbloom_lookup (st : Tdcbloom) (now : ℕ) (hs : List ℕ) : Bool :=
  (positions hs st.size).all (fun p =>
    st.counters p ≠ 0 ∧ ¬(codeAge now (st.timers p) st.max_time > st.timeout))

/-- tdcbloom_remove: decrement every derived slot independently, with
no pre-check of the other slots. -/
def tdcbloom_remove (st : Tdcbloom) (hs : List ℕ) : Tdcbloom :=
  (positions hs st.size).foldl
    (fun s p =>
      { s with counters := Function.update s.counters p (decrement_counter (s.counters p)) }) st

/-- The per-slot expiry test of tdcbloom_count:
(now - timestamp) % max_time > timeout (no + max_time term here). -/
def countExpired (st : Tdcbloom) (now p : ℕ) : Prop :=
  sub64 now (st.timers p) % st.max_time > st.timeout

instance (st : Tdcbloom) (now p : ℕ) : Decidable (countExpired st now p) := by
  unfold countExpired; infer_instance

/-- tdcbloom_count loop: early 0 on a zero counter or an expired slot,
otherwise the running minimum of the counters. -/
def tdcbloom_count_aux (st : Tdcbloom) (now : ℕ) (acc : ℕ) : List ℕ → ℕ
  | [] => acc
  | p :: t =>
      if st.counters p = 0 then 0
      else if countExpired st now p then 0
      else tdcbloom_count_aux st now
        (if st.counters p < acc then st.counters p else acc) t

/-- tdcbloom_count: the accumulator starts at SIZE_MAX. -/
def tdcbloom_count (st : Tdcbloom) (now : ℕ) (hs : List ℕ) : ℕ :=
  tdcbloom_count_aux st now U64MAX (positions hs st.size)

/-- tdcbloom_save is an unimplemented stub: it writes nothing and
returns success. -/
def tdcbloom_save (_st : Tdcbloom) : TdcbloomError := TdcbloomError.success

/-- tdcbloom_load is an unimplemented stub: it reads nothing, leaves
the output filter untouched and returns success. -/
def tdcbloom_load (st : Tdcbloom) : TdcbloomError × Tdcbloom :=
  (TdcbloomError.success, st)

/-! ## Sizing math (ideal_size and the derived hash counts)

The C code computes these with doubles; they are modelled over ℝ with
the float-to-integer casts rendered as Nat.floor (truncation toward
zero of a nonnegative value). -/

/-- ideal_size, shared verbatim by all four variants:
(size_t)(-(expected * log(accuracy) / pow(log(2), 2))). -/
noncomputable def ideal_size (expected : ℕ) (accuracy : ℝ) : ℕ :=
  ⌊-((expected : ℝ) * Real.log accuracy / Real.log 2 ^ 2)⌋₊

/-- The hashcount assignment of bloom_init, tdbloom_init and
tdcbloom_init: (size / expected) * log(2), with size_t integer
division first and truncation of the double product on the store. -/
noncomputable def floor_hashcount (size expected : ℕ) : ℕ :=
  ⌊((size / expected : ℕ) : ℝ) * Real.log 2⌋₊

/-- The hashcount assignment of cbloom_init, which alone adds 0.5
before the cast to round to nearest. -/
noncomputable def round_hashcount (size expected : ℕ) : ℕ :=
  ⌊((size / expected : ℕ) : ℝ) * Real.log 2 + 1 / 2⌋₊

/-- hashcount stored by bloom_init (same formula in tdbloom_init and
tdcbloom_init). -/
noncomputable def bloom_init_hashcount (expected : ℕ) (accuracy : ℝ) : ℕ :=
  floor_hashcount (ideal_size expected accuracy) expected

/-- hashcount stored by cbloom_init. -/
noncomputable def cbloom_init_hashcount (expected : ℕ) (accuracy : ℝ) : ℕ :=
  round_hashcount (ideal_size expected accuracy) expected

/-- The value the specification claims for the hash count:
round((bit_or_slot_count / expected) * ln 2), with real division. -/
noncomputable def claimed_hashcount (size expected : ℕ) : ℤ :=
  round ((size : ℝ) / (expected : ℝ) * Real.log 2)

/-! ## Construction status control flow

Allocation success is an external condition and is passed in as a
boolean.  The float accuracy argument is modelled as ℚ here because
these functions only compare it. -/

/-- bloom_init contains no parameter validation: it returns
BF_OUTOFMEMORY when calloc fails and BF_SUCCESS otherwise, for any
expected count and accuracy. -/
def bloom_init_status (_expected : ℕ) (_accuracy : ℚ) (allocOk : Bool) : BloomError :=
  if allocOk then BloomError.success else BloomError.outOfMemory

/-- tdbloom_init validates only the timeout (a size_t can never exceed
UINT64_MAX, so on the 64-bit target the check never fires); there is no
check of expected or accuracy. -/
def tdbloom_init_status (_expected : ℕ) (_accuracy : ℚ) (timeout : ℕ)
    (allocOk : Bool) : TdbloomError :=
  if timeout > U64MAX then TdbloomError.invalidTimeout
  else if allocOk then TdbloomError.success else TdbloomError.outOfMemory

/-- cbloom_init validates only the counter-size switch (every CSize4
value is a valid case); there is no check of expected or accuracy. -/
def cbloom_init_status (_expected : ℕ) (_accuracy : ℚ) (_csize : CSize4)
    (allocOk : Bool) : CbloomError :=
  if allocOk then CbloomError.success else CbloomError.outOfMemory

/-- tdcbloom_init: rejects expected == 0, then accuracy outside (0,1),
then falls through the (always valid) size switches to allocation. -/
def tdcbloom_init_status (expected : ℕ) (accuracy : ℚ) (_timeout : ℕ)
    (_csize : CSize) (_tsize : TSize) (allocOk : Bool) : TdcbloomError :=
  if expected = 0 then TdcbloomError.invalidExpected
  else if accuracy ≤ 0 ∨ accuracy ≥ 1 then TdcbloomError.invalidAccuracy
  else if allocOk then TdcbloomError.success else TdcbloomError.outOfMemory

/-! ## Set algebra of plain filters (bloom.c) -/

/-- bit_count_table from bloom.c: popcount of one byte. -/
def bit_count_table : List ℕ :=
  [0, 1, 1, 2, 1, 2, 2, 3, 1, 2, 2, 3, 2, 3, 3, 4,
   1, 2, 2, 3, 2, 3, 3, 4, 2, 3, 3, 4, 3, 4, 4, 5,
   1, 2, 2, 3, 2, 3, 3, 4, 2, 3, 3, 4, 3, 4, 4, 5,
   2, 3, 3, 4, 3, 4, 4, 5, 3, 4, 4, 5, 4, 5, 5, 6,
   1, 2, 2, 3, 2, 3, 3, 4, 2, 3, 3, 4, 3, 4, 4, 5,
   2, 3, 3, 4, 3, 4, 4, 5, 3, 4, 4, 5, 4, 5, 5, 6,
   2, 3, 3, 4, 3, 4, 4, 5, 3, 4, 4, 5, 4, 5, 5, 6,
   3, 4, 4, 5, 4, 5, 5, 6, 4, 5, 5, 6, 5, 6, 6, 7,
   1, 2, 2, 3, 2, 3, 3, 4, 2, 3, 3, 4, 3, 4, 4, 5,
   2, 3, 3, 4, 3, 4, 4, 5, 3, 4, 4, 5, 4, 5, 5, 6,
   2, 3, 3, 4, 3, 4, 4, 5, 3, 4, 4, 5, 4, 5, 5, 6,
   3, 4, 4, 5, 4, 5, 5, 6, 4, 5, 5, 6, 5, 6, 6, 7,
   2, 3, 3, 4, 3, 4, 4, 5, 3, 4, 4, 5, 4, 5, 5, 6,
   3, 4, 4, 5, 4, 5, 5, 6, 4, 5, 5, 6, 5, 6, 6, 7,
   3, 4, 4, 5, 4, 5, 5, 6, 4, 5, 5, 6, 5, 6, 6, 7,
   4, 5, 5, 6, 5, 6, 6, 7, 5, 6, 6, 7, 6, 7, 7, 8]

/-- Number of set bits in the low 8 bits of a byte value, the quantity
bit_count_table tabulates. -/
def popcount8 (b : ℕ) : ℕ :=
  ((List.range 8).filter (fun i => Nat.testBit b i)).length

/-- bloom_estimate_intersection: returns -1 when size or hashcount
differ (accuracy is not compared), otherwise the popcount of the
AND of the bitmaps divided by the total number of bitmap bits,
times 100. -/
def bloom_estimate_intersection (bf1 bf2 : Bloomfilter) : ℚ :=
  if bf1.size ≠ bf2.size ∨ bf1.hashcount ≠ bf2.hashcount then -1
  else
    ((((List.range bf1.bitmap_size).map
      (fun i => bit_count_table.getD ((bf1.bitmap i) &&& (bf2.bitmap i)) 0)).sum : ℕ) : ℚ) /
      ((bf1.bitmap_size * 8 : ℕ) : ℚ) * 100

/-- Modelled from the spec (§4.6): estimate_similarity(a,b) =
popcount(a AND b) / popcount(a OR b) * 100, returning 0 when both
filters are empty.  This is the specification-side definition used to
compare against bloom_estimate_intersection. -/
def specEstimateSimilarity (bf1 bf2 : Bloomfilter) : ℚ :=
  if (((List.range bf1.bitmap_size).map
      (fun i => popcount8 ((bf1.bitmap i) ||| (bf2.bitmap i)))).sum : ℕ) = 0 then 0
  else
    ((((List.range bf1.bitmap_size).map
      (fun i => popcount8 ((bf1.bitmap i) &&& (bf2.bitmap i)))).sum : ℕ) : ℚ) /
      ((((List.range bf1.bitmap_size).map
        (fun i => popcount8 ((bf1.bitmap i) ||| (bf2.bitmap i)))).sum : ℕ) : ℚ) * 100

/-- bloom_merge: requires equal size, hashcount and accuracy, and ORs
the bitmaps into a freshly allocated result. -/
def bloom_merge (bf1 bf2 : Bloomfilter) (allocOk : Bool) :
    BloomError × Option Bloomfilter :=
  if bf1.size ≠ bf2.size ∨ bf1.hashcount ≠ bf2.hashcount ∨ bf1.accuracy ≠ bf2.accuracy
  then (BloomError.invalidFile, none)
  else if ¬allocOk then (BloomError.outOfMemory, none)
  else
    (BloomError.success, some
      { bf1 with
        insertions := bf1.insertions + bf2.insertions
        bitmap := fun i => (bf1.bitmap i) ||| (bf2.bitmap i) })

/-! ## Serialization of the plain filter (bloom.c)

A saved file is the struct header followed by the raw bitmap bytes;
st_size is the total length of what was written. -/

/-- The on-disk image written by bloom_save: the bloomfilter struct
(including its metadata fields) followed by bitmap_size raw bytes. -/
structure BloomFile where
  hsize : ℕ
  hhashcount : ℕ
  hbitmap_size : ℕ
  hexpected : ℕ
  hinsertions : ℕ
  haccuracy : ℚ
  data : List ℕ


/-- Stand-in for sizeof(bloomfilter), the byte length of the struct
header on disk.  Its exact value is irrelevant to the load checks,
which only compare header_size + bitmap_size against st_size. -/
def bloomStructSize : ℕ := 56

/-- st_size of a saved file. -/
def bloomFileSize (f : BloomFile) : ℕ := bloomStructSize + f.data.length

/-- bloom_save (after a successful fopen and with both writes
succeeding): the struct fields verbatim, then the first bitmap_size
bytes of the bitmap. -/
def bloom_save (bf : Bloomfilter) : BloomFile :=
  { hsize := bf.size
    hhashcount := bf.hashcount
    hbitmap_size := bf.bitmap_size
    hexpected := bf.expected
    hinsertions := bf.insertions
    haccuracy := bf.accuracy
    data := (List.range bf.bitmap_size).map bf.bitmap }

/-- bloom_load (after successful fopen/fstat/fread of the header):
checks size / 8 == bitmap_size and header + bitmap_size == st_size,
then reads bitmap_size bytes into a fresh buffer. -/
def bloom_load (f : BloomFile) (allocOk : Bool) : BloomError × Option Bloomfilter :=
  if f.hsize / 8 ≠ f.hbitmap_size ∨ bloomStructSize + f.hbitmap_size ≠ bloomFileSize f
  then (BloomError.invalidFile, none)
  else if ¬allocOk then (BloomError.outOfMemory, none)
  else
    (BloomError.success, some
      { size := f.hsize
        hashcount := f.hhashcount
        bitmap_size := f.hbitmap_size
        expected := f.hexpected
        insertions := f.hinsertions
        accuracy := f.haccuracy
        bitmap := fun i => f.data.getD i 0 })

/-! ## Concrete states used by witnesses and counterexamples -/

/-- A time-decaying filter (8-bit timers, 10 s timeout) whose start
time lies 300 s in the past at the time of the operations below. -/
def exTdbloom : Tdbloom :=
  { size := 1, hashcount := 1, timeout := 10, filter_size := 1,
    start_time := 0, expected := 1, accuracy := 1 / 100, max_time := 255,
    bytes := 1, filter := fun _ => 0 }

/-- A counting filter with 64-bit counters whose single counter holds
UINT64_MAX. -/
def exCbloom64 : Cbloomfilter :=
  { size := 1, hashcount := 1, countermap_size := 8, expected := 1,
    accuracy := 1 / 100, csize := CSize4.c64, countermap := fun _ => U64MAX }

/-- A time-decaying counting filter in which slot 0 has counter 0 and
slot 1 has counter 5: an element hashing to both is not fully present. -/
def exTdcbloomPartial : Tdcbloom :=
  { size := 2, start_time := 0, timeout := 10, max_time := 255,
    hashcount := 2, csize := CSize.c8, tsize := TSize.t8,
    counters := fun p => if p = 1 then 5 else 0, timers := fun _ => 1 }

/-- A time-decaying filter with 64-bit timestamps (max_time =
UINT64_MAX), timeout 5, holding stored timestamp 1 in its slot. -/
def exTdbloom64 : Tdbloom :=
  { size := 1, hashcount := 1, timeout := 5, filter_size := 8,
    start_time := 0, expected := 1, accuracy := 1 / 100,
    max_time := U64MAX, bytes := 8, filter := fun _ => 1 }

/-- A plain filter of 8 bits (one byte) whose byte 0 holds 0x01. -/
def exPlain : Bloomfilter :=
  { size := 8, hashcount := 1, bitmap_size := 1, expected := 1,
    insertions := 1, accuracy := 1 / 100, bitmap := fun _ => 1 }

/-! ## C10 -/

/-- C10: for the TimeDecaying (non-counting) filter, once the elapsed
time since start_time exceeds max_time, tdbloom_lookup returns false
for every element, because of the unconditional elapsed-time guard
before any slot is examined. -/
theorem c10_elapsed_guard (tf : Tdbloom) (now : ℕ) (hs : List ℕ)
    (h : now - tf.start_time > tf.max_time) :
    tdbloom_lookup tf now hs = false := by
  unfold tdbloom_lookup
  simp [h]

/-- Witness for C10 at a concrete state: elapsed 300 s with an 8-bit
timer (max_time 255). -/
theorem c10_elapsed_guard_witness :
    300 - exTdbloom.start_time > exTdbloom.max_time ∧
    tdbloom_lookup exTdbloom 300 [0] = false :=
  ⟨by decide, c10_elapsed_guard exTdbloom 300 [0] (by decide)⟩

/-! ## C3 -/

/-- C3: evaluation of the code at the failing input.  A 64-bit cbloom
counter holding UINT64_MAX wraps to 0 when incremented
(inc_counter_amount adds in uint64 before set_counter performs an
unchecked 64-bit store), contradicting the saturation property.  The
tdcbloom increment_counter, by contrast, saturates at every width, and
decrements floor at zero everywhere. -/
theorem c3_counter64_wraps :
    get_counter exCbloom64 0 = U64MAX ∧
    get_counter (inc_counter exCbloom64 0) 0 = 0 ∧
    increment_counter U64MAX CSize.c64 = U64MAX ∧
    decrement_counter 0 = 0 := by decide

/-! ## C2 -/

/-- C2: the round-trip holds for the plain filter, but tdbloom_save
inverts its error check: with both fwrite calls succeeding it returns
TDBF_FWRITE, and with the filter-buffer write failing it returns
TDBF_SUCCESS; tdcbloom_load is a stub that returns success without
reading anything. -/
theorem c2_roundtrip (bf : Bloomfilter) (hwf : bf.bitmap_size = bf.size / 8) :
    (∃ bf2 : Bloomfilter,
      bloom_load (bloom_save bf) true = (BloomError.success, some bf2) ∧
      bf2.size = bf.size ∧ bf2.hashcount = bf.hashcount ∧
      bf2.bitmap_size = bf.bitmap_size ∧ bf2.expected = bf.expected ∧
      bf2.accuracy = bf.accuracy ∧
      ∀ i < bf.bitmap_size, bf2.bitmap i = bf.bitmap i) ∧
    tdbloom_save_result true true = TdbloomError.fwrite ∧
    tdbloom_save_result true false = TdbloomError.success ∧
    (∀ st : Tdcbloom, tdcbloom_load st = (TdcbloomError.success, st)) := by
  refine ⟨?_, by decide, by decide, fun st => rfl⟩
  refine ⟨{ size := bf.size, hashcount := bf.hashcount,
            bitmap_size := bf.bitmap_size, expected := bf.expected,
            insertions := bf.insertions, accuracy := bf.accuracy,
            bitmap := fun i => ((List.range bf.bitmap_size).map bf.bitmap).getD i 0 },
          ?_, rfl, rfl, rfl, rfl, rfl, ?_⟩
  · unfold bloom_load bloom_save bloomFileSize
    rw [if_neg (by simp [hwf])]
    simp
  · intro i hi
    simp only
    rw [List.getD_eq_getElem?_getD, List.getElem?_map, List.getElem?_range hi]
    rfl

/-- Witness for C2 at a concrete plain filter. -/
theorem c2_roundtrip_witness :
    exPlain.bitmap_size = exPlain.size / 8 ∧
    tdbloom_save_result true true = TdbloomError.fwrite :=
  ⟨by decide, (c2_roundtrip exPlain (by decide)).2.1⟩

/-! ## C8 -/

/-- C8 counterexample: bloom_init, cbloom_init and tdbloom_init accept
an accuracy of 2.0 (outside (0,1)) and report success; their error
enums contain no invalid-parameter code for accuracy or expected
count. -/
theorem c8_counterexample :
    bloom_init_status 10 2 true = BloomError.success ∧
    cbloom_init_status 10 2 CSize4.c8 true = CbloomError.success ∧
    tdbloom_init_status 10 2 5 true = TdbloomError.success := by decide

/-- C8 amended: only tdcbloom_init validates the construction
parameters (expected == 0, accuracy outside (0,1)); bloom_init,
cbloom_init and tdbloom_init perform no such validation and return
success whenever allocation succeeds. -/
theorem c8_validation (expected : ℕ) (accuracy : ℚ) (timeout : ℕ)
    (cs : CSize) (ts : TSize) (cs4 : CSize4) :
    tdcbloom_init_status 0 accuracy timeout cs ts true = TdcbloomError.invalidExpected ∧
    (expected ≠ 0 → accuracy ≤ 0 ∨ 1 ≤ accuracy →
      tdcbloom_init_status expected accuracy timeout cs ts true =
        TdcbloomError.invalidAccuracy) ∧
    (expected ≠ 0 → 0 < accuracy → accuracy < 1 →
      tdcbloom_init_status expected accuracy timeout cs ts true =
        TdcbloomError.success) ∧
    bloom_init_status expected accuracy true = BloomError.success ∧
    cbloom_init_status expected accuracy cs4 true = CbloomError.success ∧
    (timeout ≤ U64MAX →
      tdbloom_init_status expected accuracy timeout true = TdbloomError.success) := by
  refine ⟨by simp [tdcbloom_init_status], ?_, ?_, rfl, rfl, ?_⟩
  · intro he ha
    simp only [tdcbloom_init_status, if_neg he]
    rw [if_pos]
    rcases ha with h | h
    · exact Or.inl h
    · exact Or.inr h
  · intro he h0 h1
    unfold tdcbloom_init_status
    rw [if_neg he, if_neg (by push_neg; exact ⟨h0, h1⟩)]
    rfl
  · intro ht
    unfold tdbloom_init_status
    rw [if_neg (by omega), if_pos rfl]

/-- Witness for C8 at concrete inputs: expected 10, accuracy 2. -/
theorem c8_validation_witness :
    tdcbloom_init_status 0 (1 / 100) 60 CSize.c8 TSize.t8 true =
      TdcbloomError.invalidExpected ∧
    tdcbloom_init_status 10 2 60 CSize.c8 TSize.t8 true =
      TdcbloomError.invalidAccuracy ∧
    tdcbloom_init_status 10 (1 / 100) 60 CSize.c8 TSize.t8 true =
      TdcbloomError.success ∧
    bloom_init_status 10 2 true = BloomError.success :=
  ⟨(c8_validation 10 (1 / 100) 60 CSize.c8 TSize.t8 CSize4.c8).1,
   (c8_validation 10 2 60 CSize.c8 TSize.t8 CSize4.c8).2.1 (by decide)
     (Or.inr (by norm_num)),
   (c8_validation 10 (1 / 100) 60 CSize.c8 TSize.t8 CSize4.c8).2.2.1 (by decide)
     (by norm_num) (by norm_num),
   (c8_validation 10 2 60 CSize.c8 TSize.t8 CSize4.c8).2.2.2.1⟩

/-! ## C6 -/

/-- C6 counterexample: with the 64-bit timestamp width (max_time =
UINT64_MAX) the claimed formula ((logical_now - stored + max) mod max)
gives age 6 > timeout 5 for logical_now 7 and stored 1, so the claim
judges the nonzero slot expired; tdbloom_lookup nevertheless returns
true, because the uint64 evaluation of (ts - value + max_time) wraps
modulo 2^64 and yields 5. -/
theorem c6_counterexample :
    exTdbloom64.filter 0 ≠ 0 ∧
    tdLogicalTs 7 exTdbloom64.start_time exTdbloom64.max_time = 7 ∧
    (7 + exTdbloom64.max_time - exTdbloom64.filter 0) % exTdbloom64.max_time = 6 ∧
    6 > exTdbloom64.timeout ∧
    tdbloom_lookup exTdbloom64 7 [0] = true := by decide

/-- C6 amended: the per-slot age computed by the lookups equals the
claimed ((logical_now - stored + max) mod max) whenever the uint64
evaluation cannot wrap, i.e. when logical_now + max_time < 2^64 — true
for the 8-, 16- and 32-bit timestamp widths in any run, but violated
by the 64-bit width, where max_time = 2^64 - 1 (see the
counterexample). -/
theorem c6_modular_age (ts v max_time timeout : ℕ)
    (h1 : ts + max_time < M64) (h2 : v ≤ ts + max_time) :
    codeAge ts v max_time = (ts + max_time - v) % max_time ∧
    (codeAge ts v max_time > timeout ↔ (ts + max_time - v) % max_time > timeout) := by
  have hq : codeAge ts v max_time = (ts + max_time - v) % max_time := by
    unfold codeAge add64 sub64 M64 at *
    congr 1
    omega
  exact ⟨hq, by rw [hq]⟩

/-- Witness for C6 with an 8-bit width: logical_now 7, stored 200,
max 255, timeout 10: age (7 - 200 + 255) mod 255 = 62, expired. -/
theorem c6_modular_age_witness :
    7 + 255 < M64 ∧ (200 : ℕ) ≤ 7 + 255 ∧
    codeAge 7 200 255 = (7 + 255 - 200) % 255 :=
  ⟨by decide, by decide, (c6_modular_age 7 200 255 10 (by decide) (by decide)).1⟩

/-! ## C4 -/

/-- Upper bound of a raw stored cell for each counter width (one byte
for the nibble-packed 4-bit width). -/
def cellBound : CSize4 → ℕ
  | .c4 => 256
  | .c8 => 256
  | .c16 => 65536
  | .c32 => 4294967296
  | .c64 => M64

/-- Well-formedness of a counting filter: every stored cell is within
the range of its C storage type. -/
def CbloomWf (cbf : Cbloomfilter) : Prop :=
  ∀ i, cbf.countermap i < cellBound cbf.csize

/-- The value set_counter actually stores for a requested value. -/
def clampStore : CSize4 → ℕ → ℕ
  | .c4, v => if v > 15 then 15 else v
  | .c8, v => if v > U8MAX then U8MAX else v
  | .c16, v => if v > U16MAX then U16MAX else v
  | .c32, v => if v > U32MAX then U32MAX else v
  | .c64, v => v % M64

theorem set_counter_csize (cbf : Cbloomfilter) (p v : ℕ) :
    (set_counter cbf p v).csize = cbf.csize := by
  obtain ⟨size, hc, cms, exp, acc, csize, map⟩ := cbf
  cases csize <;> rfl

theorem set_counter_size (cbf : Cbloomfilter) (p v : ℕ) :
    (set_counter cbf p v).size = cbf.size := by
  obtain ⟨size, hc, cms, exp, acc, csize, map⟩ := cbf
  cases csize <;> rfl

theorem get_counter_set_self (cbf : Cbloomfilter) (p v : ℕ) :
    get_counter (set_counter cbf p v) p = clampStore cbf.csize v := by
  obtain ⟨size, hc, cms, exp, acc, csize, map⟩ := cbf
  cases csize <;>
    simp only [get_counter, set_counter, clampStore, Function.update_same]
  case c4 =>
    by_cases hp : p % 2 = 0 <;> by_cases hv : v > 15 <;>
      simp only [hp, hv, if_true, if_false, Function.update_same] <;> omega

theorem get_counter_set_ne (cbf : Cbloomfilter) (q v p : ℕ) (hne : p ≠ q)
    (hwf : cbf.csize = CSize4.c4 → cbf.countermap (p / 2) < 256) :
    get_counter (set_counter cbf q v) p = get_counter cbf p := by
  obtain ⟨size, hc, cms, exp, acc, csize, map⟩ := cbf
  cases csize <;>
    simp only [get_counter, set_counter]
  case c8 => rw [Function.update_noteq hne]
  case c16 => rw [Function.update_noteq hne]
  case c32 => rw [Function.update_noteq hne]
  case c64 => rw [Function.update_noteq hne]
  case c4 =>
    have hbyte := hwf rfl
    simp only at hbyte
    by_cases hb : p / 2 = q / 2
    · have hpar : p % 2 ≠ q % 2 := by omega
      rw [hb] at hbyte ⊢
      rw [Function.update_same]
      split_ifs <;> omega
    · rw [Function.update_noteq hb]

theorem cbloomWf_set (cbf : Cbloomfilter) (p v : ℕ) (h : CbloomWf cbf) :
    CbloomWf (set_counter cbf p v) := by
  intro i
  rw [set_counter_csize]
  obtain ⟨size, hc, cms, exp, acc, csize, map⟩ := cbf
  have hi := h i
  simp only [CbloomWf, cellBound] at hi
  cases csize <;>
    simp only [set_counter, cellBound, U8MAX, U16MAX, U32MAX, M64] at hi ⊢
  case c4 =>
    by_cases hb : i = p / 2
    · subst hb; rw [Function.update_same]; split_ifs <;> omega
    · rw [Function.update_noteq hb]; exact hi
  case c8 =>
    by_cases hb : i = p
    · subst hb; rw [Function.update_same]; split_ifs <;> omega
    · rw [Function.update_noteq hb]; exact hi
  case c16 =>
    by_cases hb : i = p
    · subst hb; rw [Function.update_same]; split_ifs <;> omega
    · rw [Function.update_noteq hb]; exact hi
  case c32 =>
    by_cases hb : i = p
    · subst hb; rw [Function.update_same]; split_ifs <;> omega
    · rw [Function.update_noteq hb]; exact hi
  case c64 =>
    by_cases hb : i = p
    · subst hb; rw [Function.update_same]; omega
    · rw [Function.update_noteq hb]; exact hi

/-- The stored cells bound the readable counter values. -/
theorem get_counter_le_max (cbf : Cbloomfilter) (h : CbloomWf cbf) (p : ℕ) :
    get_counter cbf p ≤ csizeMax cbf.csize := by
  obtain ⟨size, hc, cms, exp, acc, csize, map⟩ := cbf
  have h2 := h p
  have h4 := h (p / 2)
  simp only [CbloomWf, cellBound] at h2 h4
  cases csize <;>
    simp only [get_counter, csizeMax, U8MAX, U16MAX, U32MAX, U64MAX, M64] at h2 h4 ⊢
  case c4 => split_ifs <;> omega
  case c8 => omega
  case c16 => omega
  case c32 => omega
  case c64 => omega

theorem dec_counter_csize (cbf : Cbloomfilter) (p : ℕ) :
    (dec_counter cbf p).csize = cbf.csize := by
  unfold dec_counter dec_counter_amount
  split <;> rw [set_counter_csize]

theorem cbloomWf_dec (cbf : Cbloomfilter) (p : ℕ) (h : CbloomWf cbf) :
    CbloomWf (dec_counter cbf p) := by
  unfold dec_counter dec_counter_amount
  split <;> exact cbloomWf_set _ _ _ h

theorem clampStore_zero (cs : CSize4) : clampStore cs 0 = 0 := by
  cases cs <;> simp [clampStore, U8MAX, U16MAX, U32MAX, M64]

theorem clampStore_of_le (cs : CSize4) (v : ℕ) (hv : v ≤ csizeMax cs) :
    clampStore cs v = v := by
  cases cs <;>
    simp only [clampStore, csizeMax, U8MAX, U16MAX, U32MAX, U64MAX, M64] at hv ⊢ <;>
    first
    | (split_ifs <;> omega)
    | omega

/-- dec_counter decreases the addressed counter by exactly one (its
floor at zero coincides with truncated subtraction on ℕ). -/
theorem get_dec_counter_self (cbf : Cbloomfilter) (p : ℕ) (h : CbloomWf cbf) :
    get_counter (dec_counter cbf p) p = get_counter cbf p - 1 := by
  have hle := get_counter_le_max cbf h p
  unfold dec_counter dec_counter_amount
  split
  case isTrue hv =>
    rw [get_counter_set_self, clampStore_zero]
    omega
  case isFalse hv =>
    rw [get_counter_set_self,
      clampStore_of_le _ _ (le_trans (Nat.sub_le _ _) hle)]

theorem get_dec_counter_ne (cbf : Cbloomfilter) (q p : ℕ) (hne : p ≠ q)
    (h : CbloomWf cbf) :
    get_counter (dec_counter cbf q) p = get_counter cbf p := by
  unfold dec_counter dec_counter_amount
  have hwf4 : cbf.csize = CSize4.c4 → cbf.countermap (p / 2) < 256 := by
    intro h4
    have := h (p / 2)
    rw [h4] at this
    exact this
  split <;> exact get_counter_set_ne cbf q _ p hne hwf4

theorem foldl_dec_not_mem (L : List ℕ) (cbf : Cbloomfilter) (h : CbloomWf cbf)
    (p : ℕ) (hp : p ∉ L) :
    get_counter (L.foldl dec_counter cbf) p = get_counter cbf p := by
  induction L generalizing cbf with
  | nil => rfl
  | cons q T ih =>
      rw [List.foldl_cons]
      rw [ih (dec_counter cbf q) (cbloomWf_dec cbf q h) (fun hm => hp (List.mem_cons_of_mem q hm))]
      exact get_dec_counter_ne cbf q p
        (fun hpq => hp (by rw [hpq]; exact List.mem_cons_self q T)) h

theorem foldl_dec_mem (L : List ℕ) (cbf : Cbloomfilter) (h : CbloomWf cbf)
    (hnd : L.Nodup) (p : ℕ) (hp : p ∈ L) :
    get_counter (L.foldl dec_counter cbf) p = get_counter cbf p - 1 := by
  induction L generalizing cbf with
  | nil => cases hp
  | cons q T ih =>
      rw [List.foldl_cons]
      rcases List.mem_cons.mp hp with rfl | hmem
      · rw [foldl_dec_not_mem T (dec_counter cbf p) (cbloomWf_dec cbf p h) p
          (List.Nodup.not_mem hnd)]
        exact get_dec_counter_self cbf p h
      · rw [ih (dec_counter cbf q) (cbloomWf_dec cbf q h) (List.Nodup.of_cons hnd) hmem]
        rw [get_dec_counter_ne cbf q p
          (fun hpq => (List.Nodup.not_mem hnd) (by rw [← hpq]; exact hmem)) h]

/-- decrement_counter coincides with truncated subtraction by one. -/
theorem decrement_counter_eq (v : ℕ) : decrement_counter v = v - 1 := by
  unfold decrement_counter
  split <;> omega

theorem tdc_remove_step_not_mem (L : List ℕ) (st : Tdcbloom) (p : ℕ) (hp : p ∉ L) :
    (L.foldl (fun s q =>
      { s with counters := Function.update s.counters q (decrement_counter (s.counters q)) })
      st).counters p = st.counters p := by
  induction L generalizing st with
  | nil => rfl
  | cons q T ih =>
      rw [List.foldl_cons]
      rw [ih _ (fun hm => hp (List.mem_cons_of_mem q hm))]
      exact Function.update_noteq
        (fun hpq => hp (by rw [hpq]; exact List.mem_cons_self q T)) _ _

theorem tdc_remove_step_mem (L : List ℕ) (st : Tdcbloom) (hnd : L.Nodup)
    (p : ℕ) (hp : p ∈ L) :
    (L.foldl (fun s q =>
      { s with counters := Function.update s.counters q (decrement_counter (s.counters q)) })
      st).counters p = st.counters p - 1 := by
  induction L generalizing st with
  | nil => cases hp
  | cons q T ih =>
      rw [List.foldl_cons]
      rcases List.mem_cons.mp hp with rfl | hmem
      · rw [tdc_remove_step_not_mem T _ p (List.Nodup.not_mem hnd)]
        simp only [Function.update_same]
        exact decrement_counter_eq _
      · rw [ih _ (List.Nodup.of_cons hnd) hmem]
        dsimp only
        rw [Function.update_noteq
          (fun hpq => (List.Nodup.not_mem hnd) (by rw [← hpq]; exact hmem))]

/-- C4 counterexample: an element whose two derived slots are 0 and 5
is not fully present, yet tdcbloom_remove still decrements the nonzero
slot from 5 to 4 — the filter state is changed, against the claim. -/
theorem c4_counterexample :
    exTdcbloomPartial.counters 0 = 0 ∧
    exTdcbloomPartial.counters 1 = 5 ∧
    (tdcbloom_remove exTdcbloomPartial [0, 1]).counters 1 = 4 := by decide

/-- C4 amended: cbloom_remove is all-or-nothing exactly as claimed
(unchanged when any derived slot is zero, each derived slot
decremented by one otherwise), but tdcbloom_remove performs no
pre-check: it decrements every derived slot independently, flooring
each at zero, even when some other derived slot is zero. -/
theorem c4_remove (cbf : Cbloomfilter) (st : Tdcbloom) (hs : List ℕ)
    (hwf : CbloomWf cbf) :
    ((∃ p ∈ positions hs cbf.size, get_counter cbf p = 0) →
      cbloom_remove cbf hs = cbf) ∧
    ((∀ p ∈ positions hs cbf.size, get_counter cbf p ≠ 0) →
      (positions hs cbf.size).Nodup →
      ∀ p ∈ positions hs cbf.size,
        get_counter (cbloom_remove cbf hs) p = get_counter cbf p - 1) ∧
    ((positions hs st.size).Nodup →
      ∀ p ∈ positions hs st.size,
        (tdcbloom_remove st hs).counters p = st.counters p - 1) := by
  refine ⟨?_, ?_, ?_⟩
  · intro ⟨p, hp, hz⟩
    unfold cbloom_remove
    rw [if_neg]
    simp only [List.all_eq_true, decide_eq_true_eq, not_forall]
    exact ⟨p, hp, by simp [hz]⟩
  · intro hall hnd p hp
    unfold cbloom_remove
    rw [if_pos]
    · exact foldl_dec_mem _ cbf hwf hnd p hp
    · simp only [List.all_eq_true, decide_eq_true_eq]
      exact hall
  · intro hnd p hp
    exact tdc_remove_step_mem _ st hnd p hp

/-- An 8-bit counting filter with counters 0 and 7 at slots 0 and 1. -/
def exCbloomC8 : Cbloomfilter :=
  { size := 2, hashcount := 2, countermap_size := 2, expected := 1,
    accuracy := 1 / 100, csize := CSize4.c8,
    countermap := fun p => if p = 1 then 7 else 0 }

/-- Witness for C4 at concrete filters: an element with a zero slot is
left untouched by cbloom_remove. -/
theorem c4_remove_witness :
    CbloomWf exCbloomC8 ∧ cbloom_remove exCbloomC8 [0, 1] = exCbloomC8 := by
  have hwf : CbloomWf exCbloomC8 := by
    intro i
    simp only [exCbloomC8, cellBound]
    split <;> omega
  exact ⟨hwf, (c4_remove exCbloomC8 exTdcbloomPartial [0, 1] hwf).1 ⟨0, by decide, by decide⟩⟩

/-! ## C1 -/

theorem inc_counter_csize (cbf : Cbloomfilter) (p : ℕ) :
    (inc_counter cbf p).csize = cbf.csize := by
  unfold inc_counter inc_counter_amount
  rw [set_counter_csize]

theorem inc_counter_size (cbf : Cbloomfilter) (p : ℕ) :
    (inc_counter cbf p).size = cbf.size := by
  unfold inc_counter inc_counter_amount
  rw [set_counter_size]

theorem cbloomWf_inc (cbf : Cbloomfilter) (p : ℕ) (h : CbloomWf cbf) :
    CbloomWf (inc_counter cbf p) := by
  unfold inc_counter inc_counter_amount
  exact cbloomWf_set _ _ _ h

theorem clampStore_add64_one_ne_zero (cs : CSize4) (v : ℕ) (h64 : cs ≠ CSize4.c64)
    (hv : v ≤ csizeMax cs) : clampStore cs (add64 v 1) ≠ 0 := by
  cases cs <;>
    simp only [clampStore, csizeMax, add64, U8MAX, U16MAX, U32MAX, U64MAX, M64] at hv ⊢
  case c64 => exact absurd rfl h64
  all_goals split_ifs <;> omega

theorem get_inc_nonzero (cbf : Cbloomfilter) (p : ℕ) (h : CbloomWf cbf)
    (h64 : cbf.csize ≠ CSize4.c64) :
    get_counter (inc_counter cbf p) p ≠ 0 := by
  have hle := get_counter_le_max cbf h p
  unfold inc_counter inc_counter_amount
  rw [get_counter_set_self]
  exact clampStore_add64_one_ne_zero _ _ h64 hle

theorem get_inc_counter_ne (cbf : Cbloomfilter) (q p : ℕ) (hne : p ≠ q)
    (h : CbloomWf cbf) :
    get_counter (inc_counter cbf q) p = get_counter cbf p := by
  unfold inc_counter inc_counter_amount
  refine get_counter_set_ne cbf q _ p hne ?_
  intro h4
  have := h (p / 2)
  rw [h4] at this
  exact this

theorem foldl_inc_preserve_nonzero (L : List ℕ) (cbf : Cbloomfilter)
    (h : CbloomWf cbf) (h64 : cbf.csize ≠ CSize4.c64) (p : ℕ)
    (hnz : get_counter cbf p ≠ 0) :
    get_counter (L.foldl inc_counter cbf) p ≠ 0 := by
  induction L generalizing cbf with
  | nil => exact hnz
  | cons q T ih =>
      rw [List.foldl_cons]
      refine ih (inc_counter cbf q) (cbloomWf_inc cbf q h) ?_ ?_
      · rw [inc_counter_csize]; exact h64
      · by_cases hpq : p = q
        · subst hpq; exact get_inc_nonzero cbf p h h64
        · rw [get_inc_counter_ne cbf q p hpq h]; exact hnz

theorem foldl_inc_nonzero (L : List ℕ) (cbf : Cbloomfilter) (h : CbloomWf cbf)
    (h64 : cbf.csize ≠ CSize4.c64) (p : ℕ) (hp : p ∈ L) :
    get_counter (L.foldl inc_counter cbf) p ≠ 0 := by
  induction L generalizing cbf with
  | nil => cases hp
  | cons q T ih =>
      rw [List.foldl_cons]
      by_cases hpq : p = q
      · subst hpq
        exact foldl_inc_preserve_nonzero T (inc_counter cbf p) (cbloomWf_inc cbf p h)
          (by rw [inc_counter_csize]; exact h64) p (get_inc_nonzero cbf p h h64)
      · exact ih (inc_counter cbf q) (cbloomWf_inc cbf q h)
          (by rw [inc_counter_csize]; exact h64)
          (List.mem_of_ne_of_mem hpq hp)

theorem get_c64 (cbf : Cbloomfilter) (p : ℕ) (h64 : cbf.csize = CSize4.c64) :
    get_counter cbf p = cbf.countermap p := by
  obtain ⟨size, hc, cms, exp, acc, csize, map⟩ := cbf
  simp only at h64
  subst h64
  rfl

theorem inc_c64_countermap (cbf : Cbloomfilter) (q : ℕ)
    (h64 : cbf.csize = CSize4.c64) (hlt : cbf.countermap q + 1 < M64) :
    (inc_counter cbf q).countermap =
      Function.update cbf.countermap q (cbf.countermap q + 1) := by
  obtain ⟨size, hc, cms, exp, acc, csize, map⟩ := cbf
  simp only at h64 hlt
  subst h64
  funext r
  unfold inc_counter inc_counter_amount set_counter get_counter add64 M64 at *
  simp only
  by_cases hrq : r = q
  · subst hrq
    rw [Function.update_same, Function.update_same]
    omega
  · rw [Function.update_noteq hrq, Function.update_noteq hrq]

theorem foldl_inc_c64 (L : List ℕ) : ∀ cbf : Cbloomfilter,
    cbf.csize = CSize4.c64 →
    (∀ p, cbf.countermap p + L.count p < M64) →
    ∀ p, get_counter (L.foldl inc_counter cbf) p = cbf.countermap p + L.count p := by
  induction L with
  | nil =>
      intro cbf h64 hb p
      rw [List.foldl_nil, List.count_nil, get_c64 cbf p h64]
      omega
  | cons q T ih =>
      intro cbf h64 hb p
      have hq1 : (q :: T).count q = T.count q + 1 := List.count_cons_self q T
      have hlt : cbf.countermap q + 1 < M64 := by
        have := hb q
        rw [hq1] at this
        omega
      have hmap := inc_c64_countermap cbf q h64 hlt
      have h64b : (inc_counter cbf q).csize = CSize4.c64 := by
        rw [inc_counter_csize]; exact h64
      rw [List.foldl_cons]
      rw [ih _ h64b ?_ p]
      · rw [hmap]
        by_cases hpq : p = q
        · subst hpq
          rw [Function.update_same, hq1]
          omega
        · rw [Function.update_noteq hpq, List.count_cons_of_ne hpq]
      · intro r
        rw [hmap]
        by_cases hrq : r = q
        · subst hrq
          have := hb r
          rw [hq1] at this
          rw [Function.update_same]
          omega
        · rw [Function.update_noteq hrq]
          have := hb r
          rw [List.count_cons_of_ne hrq] at this
          omega

theorem foldl_inc_size (L : List ℕ) (cbf : Cbloomfilter) :
    (L.foldl inc_counter cbf).size = cbf.size := by
  induction L generalizing cbf with
  | nil => rfl
  | cons q T ih => rw [List.foldl_cons, ih, inc_counter_size]

/-- Constant-value writes: the folded buffer holds the constant at
every touched position and is unchanged elsewhere. -/
theorem foldl_write (L : List ℕ) (m : ℕ → ℕ) (c p : ℕ) :
    (L.foldl (fun f q => Function.update f q c) m) p = if p ∈ L then c else m p := by
  induction L generalizing m with
  | nil => simp
  | cons q T ih =>
      rw [List.foldl_cons, ih]
      by_cases hT : p ∈ T
      · simp [hT, List.mem_cons]
      · by_cases hq : p = q
        · subst hq
          simp [hT, Function.update_same]
        · simp [hT, hq, Function.update_noteq hq]

theorem tdLogicalTs_pos (now start max_time : ℕ) :
    0 < tdLogicalTs now start max_time := Nat.succ_pos _

theorem tdLogicalTs_le (now start max_time : ℕ) (h : 0 < max_time) :
    tdLogicalTs now start max_time ≤ max_time := by
  unfold tdLogicalTs
  have := Nat.mod_lt (add64 ((now - start) % max_time) max_time) h
  omega

theorem codeAge_self (ts max_time : ℕ) (hlt : max_time < M64) :
    codeAge ts ts max_time = 0 := by
  have h1 : sub64 ts ts = 0 := by
    unfold sub64 M64
    omega
  rw [codeAge, h1]
  have h2 : add64 0 max_time = max_time := by
    unfold add64 M64 at *
    omega
  rw [h2, Nat.mod_self]

theorem codeAge_mod_self (now max_time : ℕ)
    (h : max_time * (now / max_time) + max_time < M64) :
    codeAge now (now % max_time) max_time = 0 := by
  rcases Nat.eq_zero_or_pos max_time with hm | hm
  · subst hm
    simp only [Nat.mod_zero]
    exact codeAge_self now 0 (by unfold M64; omega)
  · have hr : now % max_time ≤ now := Nat.mod_le now max_time
    have hrm : now % max_time < max_time := Nat.mod_lt now hm
    have hdm : max_time * (now / max_time) + now % max_time = now :=
      Nat.div_add_mod now max_time
    have h1 : sub64 now (now % max_time) = now - now % max_time := by
      unfold sub64 M64 at *
      omega
    have h2 : add64 (now - now % max_time) max_time =
        max_time * (now / max_time + 1) := by
      unfold add64 M64 at *
      have : now - now % max_time = max_time * (now / max_time) := by omega
      rw [this, Nat.mul_add, Nat.mul_one]
      omega
    rw [codeAge, h1, h2, Nat.mul_mod_right]

/-- Every timer width satisfies the no-wrap condition of
codeAge_mod_self for any clock value a nonnegative time_t can hold:
the 8/16/32-bit maxima are far below 2^64 - now, and for the 64-bit
width max_time = UINT64_MAX exceeds now, so now / max_time = 0. -/
theorem tMax_mod_cond (now : ℕ) (tsz : TSize) (h : now < 2 ^ 63) :
    tMax tsz * (now / tMax tsz) + tMax tsz < M64 := by
  have hle : now / tMax tsz * tMax tsz ≤ now := Nat.div_mul_le_self now (tMax tsz)
  rw [Nat.mul_comm]
  cases tsz <;> simp only [tMax, U8MAX, U16MAX, U32MAX, U64MAX, M64] at hle ⊢
  case t8 => omega
  case t16 => omega
  case t32 => omega
  case t64 =>
    have h0 : now / 18446744073709551615 = 0 := Nat.div_eq_of_lt (by omega)
    rw [h0]
    omega

theorem increment_counter_ne_zero (v : ℕ) (cs : CSize) :
    increment_counter v cs ≠ 0 := by
  unfold increment_counter
  cases cs <;> simp only [cMax, U8MAX, U16MAX, U32MAX, U64MAX] <;>
    split_ifs <;> omega

theorem tdc_add_fold_not_mem (cs : CSize) (tnow : ℕ) (tsz : TSize)
    (L : List ℕ) (s : Tdcbloom) (p : ℕ) (hp : p ∉ L) :
    ((L.foldl (fun s p =>
      { s with
        counters := Function.update s.counters p (increment_counter (s.counters p) cs)
        timers := Function.update s.timers p (set_timestamp tnow tsz) }) s).counters p
        = s.counters p) ∧
    ((L.foldl (fun s p =>
      { s with
        counters := Function.update s.counters p (increment_counter (s.counters p) cs)
        timers := Function.update s.timers p (set_timestamp tnow tsz) }) s).timers p
        = s.timers p) := by
  induction L generalizing s with
  | nil => exact ⟨rfl, rfl⟩
  | cons q T ih =>
      rw [List.foldl_cons]
      have hq : p ≠ q := fun hpq => hp (by rw [hpq]; exact List.mem_cons_self q T)
      have hT : p ∉ T := fun hm => hp (List.mem_cons_of_mem q hm)
      obtain ⟨ha, hb⟩ := ih _ hT
      refine ⟨?_, ?_⟩
      · rw [ha]
        exact Function.update_noteq hq _ _
      · rw [hb]
        exact Function.update_noteq hq _ _

theorem tdc_add_fold_mem (cs : CSize) (tnow : ℕ) (tsz : TSize)
    (L : List ℕ) (s : Tdcbloom) (p : ℕ) (hp : p ∈ L) :
    ((L.foldl (fun s p =>
      { s with
        counters := Function.update s.counters p (increment_counter (s.counters p) cs)
        timers := Function.update s.timers p (set_timestamp tnow tsz) }) s).counters p
        ≠ 0) ∧
    ((L.foldl (fun s p =>
      { s with
        counters := Function.update s.counters p (increment_counter (s.counters p) cs)
        timers := Function.update s.timers p (set_timestamp tnow tsz) }) s).timers p
        = set_timestamp tnow tsz) := by
  induction L generalizing s with
  | nil => cases hp
  | cons q T ih =>
      rw [List.foldl_cons]
      by_cases hT : p ∈ T
      · exact ih _ hT
      · have hpq : p = q := by
          rcases List.mem_cons.mp hp with h | h
          · exact h
          · exact absurd h hT
        subst hpq
        obtain ⟨ha, hb⟩ := tdc_add_fold_not_mem cs tnow tsz T _ p hT
        rw [ha, hb]
        dsimp only
        rw [Function.update_same, Function.update_same]
        exact ⟨increment_counter_ne_zero _ _, rfl⟩

theorem tdc_add_fold_fields (cs : CSize) (tnow : ℕ) (tsz : TSize)
    (L : List ℕ) (s : Tdcbloom) :
    ((L.foldl (fun s p =>
      { s with
        counters := Function.update s.counters p (increment_counter (s.counters p) cs)
        timers := Function.update s.timers p (set_timestamp tnow tsz) }) s).size
        = s.size) ∧
    ((L.foldl (fun s p =>
      { s with
        counters := Function.update s.counters p (increment_counter (s.counters p) cs)
        timers := Function.update s.timers p (set_timestamp tnow tsz) }) s).max_time
        = s.max_time) ∧
    ((L.foldl (fun s p =>
      { s with
        counters := Function.update s.counters p (increment_counter (s.counters p) cs)
        timers := Function.update s.timers p (set_timestamp tnow tsz) }) s).timeout
        = s.timeout) := by
  induction L generalizing s with
  | nil => exact ⟨rfl, rfl, rfl⟩
  | cons q T ih =>
      rw [List.foldl_cons]
      exact ih _

theorem set_timestamp_eq (tnow : ℕ) (tsz : TSize) :
    set_timestamp tnow tsz = tnow % tMax tsz := by
  unfold set_timestamp
  apply Nat.mod_eq_of_lt
  cases tsz <;>
    simp only [tMax, tMod, U8MAX, U16MAX, U32MAX, U64MAX, M64] <;>
    omega

/-- C1 counterexample: a TimeDecaying filter whose elapsed time
(300 s) exceeds its 8-bit max_time (255): an element added right now
— neither removed, nor expired (its age is 0, under the 10 s timeout),
nor cleared — is immediately reported absent by tdbloom_lookup because
of the filter-wide elapsed-time guard. -/
theorem c1_counterexample :
    tdbloom_lookup (tdbloom_add exTdbloom 300 [0]) 300 [0] = false := by decide

/-- C1 amended: lookup immediately after add returns true for all four
variants with these provisos forced by the code: for the TimeDecaying
filter the elapsed time since start_time must not exceed max_time
(otherwise lookup returns false for everything, see the
counterexample), and for the Counting filter with 64-bit counters the
derived counters must not overflow (the 64-bit increment wraps at
UINT64_MAX instead of saturating — the C3 bug; all smaller widths
saturate and need no proviso).  The TimeDecayingCounting variant needs
no proviso: the statement holds for every timer width, including the
64-bit one, for every clock value a nonnegative time_t can hold
(cnow < 2^63). -/
theorem c1_no_false_negatives
    (bf : Bloomfilter) (hs : List ℕ)
    (cbf : Cbloomfilter) (hwfc : CbloomWf cbf)
    (hc64 : cbf.csize = CSize4.c64 →
      ∀ p, cbf.countermap p + (positions hs cbf.size).count p < M64)
    (tf : Tdbloom) (tnow : ℕ)
    (hmax : tf.max_time = 2 ^ (8 * tf.bytes) - 1)
    (hb1 : 0 < tf.bytes) (hb8 : tf.bytes ≤ 8)
    (hguard : tnow - tf.start_time ≤ tf.max_time)
    (st : Tdcbloom) (cnow : ℕ)
    (hst : st.max_time = tMax st.tsize)
    (hcnow : cnow < 2 ^ 63) :
    bloom_lookup (bloom_add bf hs) hs = true ∧
    cbloom_lookup (cbloom_add cbf hs) hs = true ∧
    tdbloom_lookup (tdbloom_add tf tnow hs) tnow hs = true ∧
    tdcbloom_lookup (tdcbloom_add st cnow hs) cnow hs = true := by
  refine ⟨?_, ?_, ?_, ?_⟩
  · unfold bloom_lookup bloom_add
    dsimp only
    rw [List.all_eq_true]
    intro p hp
    exact bloom_add_bits bf.bitmap (positions hs bf.size) p hp
  · unfold cbloom_lookup cbloom_add
    rw [foldl_inc_size, List.all_eq_true]
    intro p hp
    simp only [ne_eq, decide_eq_true_eq]
    by_cases h64 : cbf.csize = CSize4.c64
    · rw [foldl_inc_c64 (positions hs cbf.size) cbf h64 (hc64 h64) p]
      have hc : 0 < (positions hs cbf.size).count p := List.count_pos_iff.mpr hp
      omega
    · exact foldl_inc_nonzero (positions hs cbf.size) cbf hwfc h64 p hp
  · have hmaxpos : 0 < tf.max_time := by
      have : (2 : ℕ) ^ (8 * tf.bytes) ≥ 2 ^ 8 := Nat.pow_le_pow_right (by norm_num) (by omega)
      omega
    have hmaxlt : tf.max_time < M64 := by
      have : (2 : ℕ) ^ (8 * tf.bytes) ≤ 2 ^ 64 := Nat.pow_le_pow_right (by norm_num) (by omega)
      unfold M64
      omega
    unfold tdbloom_lookup tdbloom_add
    dsimp only
    rw [if_neg (by omega), List.all_eq_true]
    intro p hp
    rw [foldl_write, if_pos hp]
    have hts1 : 0 < tdLogicalTs tnow tf.start_time tf.max_time :=
      tdLogicalTs_pos tnow tf.start_time tf.max_time
    have hts2 : tdLogicalTs tnow tf.start_time tf.max_time ≤ tf.max_time :=
      tdLogicalTs_le tnow tf.start_time tf.max_time hmaxpos
    have hstored : tdLogicalTs tnow tf.start_time tf.max_time % 2 ^ (8 * tf.bytes) =
        tdLogicalTs tnow tf.start_time tf.max_time := by
      apply Nat.mod_eq_of_lt
      omega
    rw [hstored]
    simp only [decide_eq_true_eq, not_or]
    constructor
    · omega
    · rw [codeAge_self _ _ hmaxlt]
      omega
  · unfold tdcbloom_lookup tdcbloom_add
    obtain ⟨hsz, hmt, hto⟩ :=
      tdc_add_fold_fields st.csize cnow st.tsize (positions hs st.size) st
    rw [hsz, hmt, hto, List.all_eq_true]
    intro p hp
    obtain ⟨ha, hb⟩ := tdc_add_fold_mem st.csize cnow st.tsize (positions hs st.size) st p hp
    simp only [ne_eq, decide_eq_true_eq, not_or]
    refine ⟨ha, ?_⟩
    rw [hb, set_timestamp_eq, ← hst]
    rw [codeAge_mod_self cnow st.max_time
      (by rw [hst]; exact tMax_mod_cond cnow st.tsize hcnow)]
    omega

/-- A fresh 8-bit counting filter, entirely zero. -/
def exCbloomZero : Cbloomfilter :=
  { size := 4, hashcount := 2, countermap_size := 4, expected := 1,
    accuracy := 1 / 100, csize := CSize4.c8, countermap := fun _ => 0 }

/-- A fresh time-decaying counting filter, entirely zero. -/
def exTdcbloomZero : Tdcbloom :=
  { size := 4, start_time := 0, timeout := 10, max_time := 255,
    hashcount := 2, csize := CSize.c8, tsize := TSize.t8,
    counters := fun _ => 0, timers := fun _ => 0 }

/-- A fresh time-decaying counting filter with 64-bit timers
(max_time = UINT64_MAX), entirely zero. -/
def exTdcbloom64Zero : Tdcbloom :=
  { size := 4, start_time := 0, timeout := 10, max_time := U64MAX,
    hashcount := 2, csize := CSize.c8, tsize := TSize.t64,
    counters := fun _ => 0, timers := fun _ => 0 }

/-- Witness for C1: concrete add-then-lookup on all four variants,
with the TimeDecayingCounting variant instantiated both at the 8-bit
and at the 64-bit timer width. -/
theorem c1_no_false_negatives_witness :
    (bloom_lookup (bloom_add exPlain [3, 5]) [3, 5] = true ∧
     cbloom_lookup (cbloom_add exCbloomZero [3, 5]) [3, 5] = true ∧
     tdbloom_lookup (tdbloom_add exTdbloom 100 [3, 5]) 100 [3, 5] = true ∧
     tdcbloom_lookup (tdcbloom_add exTdcbloomZero 100 [3, 5]) 100 [3, 5] = true) ∧
    tdcbloom_lookup (tdcbloom_add exTdcbloom64Zero 100 [3, 5]) 100 [3, 5] = true :=
  ⟨c1_no_false_negatives exPlain [3, 5]
    exCbloomZero (fun i => by simp [exCbloomZero, cellBound])
    (fun h => absurd h (by decide))
    exTdbloom 100 (by decide) (by decide) (by decide) (by decide)
    exTdcbloomZero 100 (by decide) (by decide),
   (c1_no_false_negatives exPlain [3, 5]
    exCbloomZero (fun i => by simp [exCbloomZero, cellBound])
    (fun h => absurd h (by decide))
    exTdbloom 100 (by decide) (by decide) (by decide) (by decide)
    exTdcbloom64Zero 100 (by decide) (by decide)).2.2.2⟩

/-! ## C5 -/

theorem csizeMax_le_u64 (cs : CSize4) : csizeMax cs ≤ U64MAX := by
  cases cs <;> simp [csizeMax, U8MAX, U16MAX, U32MAX, U64MAX]

theorem cbloom_count_aux_spec (cbf : Cbloomfilter) (L : List ℕ) : ∀ acc : ℕ,
    (cbloom_count_aux cbf acc L = acc ∨
      ∃ p ∈ L, cbloom_count_aux cbf acc L = get_counter cbf p) ∧
    cbloom_count_aux cbf acc L ≤ acc ∧
    ∀ p ∈ L, cbloom_count_aux cbf acc L ≤ get_counter cbf p := by
  induction L with
  | nil =>
      intro acc
      refine ⟨Or.inl rfl, le_refl _, ?_⟩
      intro p hp
      cases hp
  | cons q T ih =>
      intro acc
      have hred : cbloom_count_aux cbf acc (q :: T) =
          cbloom_count_aux cbf
            (if get_counter cbf q < acc then get_counter cbf q else acc) T := rfl
      obtain ⟨h1, h2, h3⟩ :=
        ih (if get_counter cbf q < acc then get_counter cbf q else acc)
      have hacc2 : (if get_counter cbf q < acc then get_counter cbf q else acc) ≤ acc := by
        split <;> omega
      have haccq : (if get_counter cbf q < acc then get_counter cbf q else acc) ≤
          get_counter cbf q := by
        split <;> omega
      refine ⟨?_, ?_, ?_⟩
      · rcases h1 with h | ⟨p, hp, hep⟩
        · by_cases hcq : get_counter cbf q < acc
          · right
            refine ⟨q, List.mem_cons_self q T, ?_⟩
            rw [hred, h, if_pos hcq]
          · left
            rw [hred, h, if_neg hcq]
        · right
          exact ⟨p, List.mem_cons_of_mem q hp, by rw [hred]; exact hep⟩
      · rw [hred]
        exact le_trans h2 hacc2
      · intro p hp
        rcases List.mem_cons.mp hp with rfl | hmem
        · rw [hred]
          exact le_trans h2 haccq
        · rw [hred]
          exact h3 p hmem

theorem tdc_count_aux_zero (st : Tdcbloom) (cnow : ℕ) (L : List ℕ)
    (h : ∃ p ∈ L, st.counters p = 0 ∨ countExpired st cnow p) :
    ∀ acc : ℕ, tdcbloom_count_aux st cnow acc L = 0 := by
  induction L with
  | nil =>
      obtain ⟨p, hp, _⟩ := h
      cases hp
  | cons q T ih =>
      intro acc
      unfold tdcbloom_count_aux
      obtain ⟨p, hp, hcase⟩ := h
      by_cases hz : st.counters q = 0
      · rw [if_pos hz]
      · rw [if_neg hz]
        by_cases he : countExpired st cnow q
        · rw [if_pos he]
        · rw [if_neg he]
          apply ih
          rcases List.mem_cons.mp hp with rfl | hmem
          · rcases hcase with hcase | hcase
            · exact absurd hcase hz
            · exact absurd hcase he
          · exact ⟨p, hmem, hcase⟩

theorem tdc_count_aux_spec (st : Tdcbloom) (cnow : ℕ) (L : List ℕ)
    (h : ∀ p ∈ L, ¬countExpired st cnow p) : ∀ acc : ℕ,
    (tdcbloom_count_aux st cnow acc L = acc ∨
      ∃ p ∈ L, tdcbloom_count_aux st cnow acc L = st.counters p) ∧
    tdcbloom_count_aux st cnow acc L ≤ acc ∧
    ∀ p ∈ L, tdcbloom_count_aux st cnow acc L ≤ st.counters p := by
  induction L with
  | nil =>
      intro acc
      refine ⟨Or.inl rfl, le_refl _, ?_⟩
      intro p hp
      cases hp
  | cons q T ih =>
      intro acc
      have hq := h q (List.mem_cons_self q T)
      have hT : ∀ p ∈ T, ¬countExpired st cnow p :=
        fun p hp => h p (List.mem_cons_of_mem q hp)
      by_cases hz : st.counters q = 0
      · have hred : tdcbloom_count_aux st cnow acc (q :: T) = 0 := by
          unfold tdcbloom_count_aux
          rw [if_pos hz]
        refine ⟨Or.inr ⟨q, List.mem_cons_self q T, by rw [hred, hz]⟩, ?_, ?_⟩
        · rw [hred]; omega
        · intro p _; rw [hred]; omega
      · have hred : tdcbloom_count_aux st cnow acc (q :: T) =
            tdcbloom_count_aux st cnow
              (if st.counters q < acc then st.counters q else acc) T := by
          conv_lhs => unfold tdcbloom_count_aux
          rw [if_neg hz, if_neg hq]
        obtain ⟨h1, h2, h3⟩ := ih hT (if st.counters q < acc then st.counters q else acc)
        have hacc2 : (if st.counters q < acc then st.counters q else acc) ≤ acc := by
          split <;> omega
        have haccq : (if st.counters q < acc then st.counters q else acc) ≤
            st.counters q := by
          split <;> omega
        refine ⟨?_, ?_, ?_⟩
        · rcases h1 with h1 | ⟨p, hp, hep⟩
          · by_cases hcq : st.counters q < acc
            · right
              refine ⟨q, List.mem_cons_self q T, ?_⟩
              rw [hred, h1, if_pos hcq]
            · left
              rw [hred, h1, if_neg hcq]
          · right
            exact ⟨p, List.mem_cons_of_mem q hp, by rw [hred]; exact hep⟩
        · rw [hred]
          exact le_trans h2 hacc2
        · intro p hp
          rcases List.mem_cons.mp hp with rfl | hmem
          · rw [hred]
            exact le_trans h2 haccq
          · rw [hred]
            exact h3 p hmem

/-- C5: cbloom_count is the minimum of the counters over the derived
slots; tdcbloom_count returns 0 as soon as any derived slot has a zero
counter or an expired timestamp (the per-slot test of tdcbloom_count),
and otherwise is the minimum of the counters. -/
theorem c5_count_min
    (cbf : Cbloomfilter) (hs : List ℕ) (hwfc : CbloomWf cbf) (hne : hs ≠ [])
    (st : Tdcbloom) (cnow : ℕ) (hcw : ∀ i, st.counters i ≤ U64MAX) :
    ((∀ p ∈ positions hs cbf.size, cbloom_count cbf hs ≤ get_counter cbf p) ∧
     (∃ p ∈ positions hs cbf.size, cbloom_count cbf hs = get_counter cbf p)) ∧
    ((∃ p ∈ positions hs st.size, countExpired st cnow p) →
      tdcbloom_count st cnow hs = 0) ∧
    ((∀ p ∈ positions hs st.size, ¬countExpired st cnow p) →
      (∀ p ∈ positions hs st.size, tdcbloom_count st cnow hs ≤ st.counters p) ∧
      (∃ p ∈ positions hs st.size, tdcbloom_count st cnow hs = st.counters p)) := by
  refine ⟨?_, ?_, ?_⟩
  · obtain ⟨h1, h2, h3⟩ := cbloom_count_aux_spec cbf (positions hs cbf.size) U64MAX
    refine ⟨h3, ?_⟩
    rcases h1 with h1 | h1
    · obtain ⟨h0, hs0⟩ := List.exists_mem_of_ne_nil hs hne
      have hp0 : h0 % cbf.size ∈ positions hs cbf.size :=
        List.mem_map_of_mem (fun h => h % cbf.size) hs0
      refine ⟨h0 % cbf.size, hp0, ?_⟩
      have hle := h3 _ hp0
      have hmax := le_trans (get_counter_le_max cbf hwfc (h0 % cbf.size))
        (csizeMax_le_u64 cbf.csize)
      unfold cbloom_count at *
      omega
    · exact h1
  · intro ⟨p, hp, he⟩
    exact tdc_count_aux_zero st cnow (positions hs st.size) ⟨p, hp, Or.inr he⟩ U64MAX
  · intro hclean
    obtain ⟨h1, h2, h3⟩ := tdc_count_aux_spec st cnow (positions hs st.size) hclean U64MAX
    refine ⟨h3, ?_⟩
    rcases h1 with h1 | h1
    · obtain ⟨h0, hs0⟩ := List.exists_mem_of_ne_nil hs hne
      have hp0 : h0 % st.size ∈ positions hs st.size :=
        List.mem_map_of_mem (fun h => h % st.size) hs0
      refine ⟨h0 % st.size, hp0, ?_⟩
      have hle := h3 _ hp0
      have hmax := hcw (h0 % st.size)
      unfold tdcbloom_count at *
      omega
    · exact h1

/-- A counting filter holding counters 3 and 5 at its two slots. -/
def exCbloomCount : Cbloomfilter :=
  { size := 2, hashcount := 2, countermap_size := 2, expected := 1,
    accuracy := 1 / 100, csize := CSize4.c8,
    countermap := fun p => if p = 1 then 5 else 3 }

/-- A time-decaying counting filter holding counters 3 and 5, all
timestamps 1, timeout 10. -/
def exTdcbloomCount : Tdcbloom :=
  { size := 2, start_time := 0, timeout := 10, max_time := 255,
    hashcount := 2, csize := CSize.c8, tsize := TSize.t8,
    counters := fun p => if p = 1 then 5 else 3, timers := fun _ => 1 }

/-- Witness for C5 on concrete filters: minimum 3 of counters 3 and 5,
and 0 when a slot is expired. -/
theorem c5_count_min_witness :
    (∃ p ∈ positions [0, 1] exCbloomCount.size,
      cbloom_count exCbloomCount [0, 1] = get_counter exCbloomCount p) ∧
    ((∃ p ∈ positions [0, 1] exTdcbloomCount.size,
        countExpired exTdcbloomCount 100 p) →
      tdcbloom_count exTdcbloomCount 100 [0, 1] = 0) := by
  have hwf : CbloomWf exCbloomCount := by
    intro i
    simp only [exCbloomCount, cellBound]
    split <;> omega
  have hcw : ∀ i, exTdcbloomCount.counters i ≤ U64MAX := by
    intro i
    simp only [exTdcbloomCount, U64MAX]
    split <;> omega
  exact ⟨((c5_count_min exCbloomCount [0, 1] hwf (by decide)
            exTdcbloomCount 100 hcw).1).2,
         (c5_count_min exCbloomCount [0, 1] hwf (by decide)
            exTdcbloomCount 100 hcw).2.1⟩

/-! ## C7 -/

theorem log_two_pos : (0 : ℝ) < Real.log 2 := Real.log_pos (by norm_num)

/-- The sizing expression of ideal_size simplifies to
expected / log 2 when accuracy = 1/2. -/
theorem ideal_size_half (expected : ℕ) :
    ideal_size expected (1 / 2 : ℝ) = ⌊(expected : ℝ) / Real.log 2⌋₊ := by
  unfold ideal_size
  congr 1
  rw [one_div, Real.log_inv]
  have h := log_two_pos.ne'
  field_simp
  ring

/-- C7 counterexample: bloom_init with expected 100, accuracy 0.5
derives size 144 and hash count 0 — the hashcount assignment truncates
(size / expected) * ln 2 = 1 * 0.693… to 0 and applies no minimum of
1, while the claim demands round(1.44 * ln 2) = 1 and a result of at
least 1. -/
theorem c7_counterexample :
    ideal_size 100 (1 / 2 : ℝ) = 144 ∧
    bloom_init_hashcount 100 (1 / 2 : ℝ) = 0 ∧
    claimed_hashcount 144 100 = 1 ∧
    ¬(1 ≤ bloom_init_hashcount 100 (1 / 2 : ℝ)) := by
  have hsize : ideal_size 100 (1 / 2 : ℝ) = 144 := by
    rw [ideal_size_half]
    rw [Nat.floor_eq_iff (by positivity)]
    constructor
    · rw [le_div_iff log_two_pos]
      calc (144 : ℝ) * Real.log 2 ≤ 144 * 0.6931471808 := by
            have := Real.log_two_lt_d9
            nlinarith
        _ ≤ 100 := by norm_num
    · rw [div_lt_iff log_two_pos]
      calc (100 : ℝ) < 145 * 0.6931471803 := by norm_num
        _ ≤ (144 + 1) * Real.log 2 := by
            have := Real.log_two_gt_d9
            nlinarith
  have hhc : bloom_init_hashcount 100 (1 / 2 : ℝ) = 0 := by
    unfold bloom_init_hashcount
    rw [hsize]
    unfold floor_hashcount
    norm_num
    calc Real.log 2 < 0.6931471808 := Real.log_two_lt_d9
      _ < 1 := by norm_num
  have hcl : claimed_hashcount 144 100 = 1 := by
    unfold claimed_hashcount
    rw [round_eq, Int.floor_eq_iff]
    have hlo := Real.log_two_gt_d9
    have hhi := Real.log_two_lt_d9
    constructor
    · push_cast
      nlinarith
    · push_cast
      nlinarith
  exact ⟨hsize, hhc, hcl, by rw [hhc]; omega⟩

/-- C7 amended: all four inits derive the hash count from the integer
division size / expected; bloom_init, tdbloom_init and tdcbloom_init
truncate the product with ln 2 while cbloom_init alone rounds it; none
applies a minimum of 1 (the count can be 0, see the counterexample),
and the stored value never exceeds the claimed
round((size / expected) · ln 2) with real division. -/
theorem c7_hashcount (expected : ℕ) (accuracy : ℝ)
    (he : 0 < expected) (h0 : 0 < accuracy) (h1 : accuracy < 1) :
    bloom_init_hashcount expected accuracy =
      floor_hashcount (ideal_size expected accuracy) expected ∧
    cbloom_init_hashcount expected accuracy =
      round_hashcount (ideal_size expected accuracy) expected ∧
    (bloom_init_hashcount expected accuracy : ℤ) ≤
      claimed_hashcount (ideal_size expected accuracy) expected ∧
    (cbloom_init_hashcount expected accuracy : ℤ) ≤
      claimed_hashcount (ideal_size expected accuracy) expected := by
  refine ⟨rfl, rfl, ?_, ?_⟩
  · unfold bloom_init_hashcount floor_hashcount claimed_hashcount
    set s := ideal_size expected accuracy
    have hv : (0 : ℝ) ≤ ((s / expected : ℕ) : ℝ) * Real.log 2 :=
      mul_nonneg (Nat.cast_nonneg _) log_two_pos.le
    rw [Int.natCast_floor_eq_floor hv, round_eq]
    have hle : ((s / expected : ℕ) : ℝ) * Real.log 2 ≤
        (s : ℝ) / (expected : ℝ) * Real.log 2 :=
      mul_le_mul_of_nonneg_right Nat.cast_div_le log_two_pos.le
    calc ⌊((s / expected : ℕ) : ℝ) * Real.log 2⌋ ≤
          ⌊(s : ℝ) / (expected : ℝ) * Real.log 2⌋ := Int.floor_mono hle
      _ ≤ ⌊(s : ℝ) / (expected : ℝ) * Real.log 2 + 1 / 2⌋ :=
          Int.floor_mono (by linarith)
  · unfold cbloom_init_hashcount round_hashcount claimed_hashcount
    set s := ideal_size expected accuracy
    have hv : (0 : ℝ) ≤ ((s / expected : ℕ) : ℝ) * Real.log 2 + 1 / 2 := by
      have := mul_nonneg (Nat.cast_nonneg (s / expected) (α := ℝ)) log_two_pos.le
      linarith
    rw [Int.natCast_floor_eq_floor hv, round_eq]
    have hle : ((s / expected : ℕ) : ℝ) * Real.log 2 + 1 / 2 ≤
        (s : ℝ) / (expected : ℝ) * Real.log 2 + 1 / 2 := by
      have : ((s / expected : ℕ) : ℝ) * Real.log 2 ≤
          (s : ℝ) / (expected : ℝ) * Real.log 2 :=
        mul_le_mul_of_nonneg_right Nat.cast_div_le log_two_pos.le
      linarith
    exact Int.floor_mono hle

/-- Witness for C7 at expected 100, accuracy 1/2. -/
theorem c7_hashcount_witness :
    bloom_init_hashcount 100 (1 / 2 : ℝ) =
      floor_hashcount (ideal_size 100 (1 / 2 : ℝ)) 100 ∧
    (bloom_init_hashcount 100 (1 / 2 : ℝ) : ℤ) ≤
      claimed_hashcount (ideal_size 100 (1 / 2 : ℝ)) 100 :=
  ⟨(c7_hashcount 100 (1 / 2) (by norm_num) (by norm_num) (by norm_num)).1,
   (c7_hashcount 100 (1 / 2) (by norm_num) (by norm_num) (by norm_num)).2.2.1⟩

/-! ## C9 -/

set_option maxRecDepth 8192

/-- bit_count_table tabulates the byte popcount. -/
theorem bit_count_table_eq_popcount8 : ∀ b < 256, bit_count_table.getD b 0 = popcount8 b := by
  decide

/-- exPlain with a different accuracy and nothing else changed. -/
def exPlainAcc2 : Bloomfilter :=
  { exPlain with accuracy := 2 / 100 }

/-- C9 counterexample.  For two identical one-byte filters whose only
set bit coincides, the claimed estimate popcount(AND)/popcount(OR)·100
is 100, but bloom_estimate_intersection divides by the total bit count
and returns 12.5.  Moreover two filters differing only in accuracy are
rejected by bloom_merge (BF_INVALIDFILE) yet accepted by
bloom_estimate_intersection, so the precondition is weaker than the
merge/intersect one. -/
theorem c9_counterexample :
    bloom_estimate_intersection exPlain exPlain = 25 / 2 ∧
    specEstimateSimilarity exPlain exPlain = 100 ∧
    (25 / 2 : ℚ) ≠ 100 ∧
    (bloom_merge exPlain exPlainAcc2 true).1 = BloomError.invalidFile ∧
    bloom_estimate_intersection exPlain exPlainAcc2 = 25 / 2 := by
  refine ⟨?_, ?_, by norm_num, ?_, ?_⟩
  · unfold bloom_estimate_intersection
    rw [if_neg (by decide)]
    norm_num [exPlain, List.range_succ, bit_count_table]
  · have h1 : popcount8 1 = 1 := by decide
    unfold specEstimateSimilarity
    norm_num [exPlain, List.range_succ, h1]
  · unfold bloom_merge
    rw [if_pos]
    right; right
    norm_num [exPlain, exPlainAcc2]
  · unfold bloom_estimate_intersection
    rw [if_neg (by decide)]
    norm_num [exPlain, exPlainAcc2, List.range_succ, bit_count_table]

/-- C9 amended: bloom_estimate_intersection requires only equal size
and hash count (not equal accuracy, unlike merge/intersect); on
compatible filters it returns popcount(a AND b) divided by the total
number of bitmap bits, times 100 — the denominator is the bitmap size
in bits, not popcount(a OR b); when both filters are empty the result
is 0 because the numerator is 0 (no division by zero occurs for a
nonempty bitmap). -/
theorem c9_estimate (bf1 bf2 : Bloomfilter)
    (hwf1 : ∀ i, bf1.bitmap i < 256) :
    (bf1.size = bf2.size → bf1.hashcount = bf2.hashcount →
      bloom_estimate_intersection bf1 bf2 =
        (((List.range bf1.bitmap_size).map
          (fun i => popcount8 (bf1.bitmap i &&& bf2.bitmap i))).sum : ℚ) /
          ((bf1.bitmap_size * 8 : ℕ) : ℚ) * 100) ∧
    (bf1.size = bf2.size → bf1.hashcount = bf2.hashcount →
      (∀ i, bf1.bitmap i = 0) → bloom_estimate_intersection bf1 bf2 = 0) ∧
    (bf1.size ≠ bf2.size → bloom_estimate_intersection bf1 bf2 = -1) := by
  refine ⟨?_, ?_, ?_⟩
  · intro h1 h2
    unfold bloom_estimate_intersection
    rw [if_neg (by push_neg; exact ⟨h1, h2⟩)]
    have hmap : (List.range bf1.bitmap_size).map
        (fun i => bit_count_table.getD (bf1.bitmap i &&& bf2.bitmap i) 0) =
        (List.range bf1.bitmap_size).map
        (fun i => popcount8 (bf1.bitmap i &&& bf2.bitmap i)) := by
      apply List.map_congr_left
      intro i _
      exact bit_count_table_eq_popcount8 _
        (lt_of_le_of_lt Nat.and_le_left (hwf1 i))
    rw [hmap]
  · intro h1 h2 hz
    unfold bloom_estimate_intersection
    rw [if_neg (by push_neg; exact ⟨h1, h2⟩)]
    have hmap : (List.range bf1.bitmap_size).map
        (fun i => bit_count_table.getD (bf1.bitmap i &&& bf2.bitmap i) 0) =
        (List.range bf1.bitmap_size).map (fun _ => 0) := by
      apply List.map_congr_left
      intro i _
      rw [hz i, Nat.zero_and]
      rfl
    rw [hmap]
    simp
  · intro h1
    unfold bloom_estimate_intersection
    rw [if_pos (Or.inl h1)]

/-- Witness for C9 on the concrete one-byte filters. -/
theorem c9_estimate_witness :
    (∀ i, exPlain.bitmap i < 256) ∧
    bloom_estimate_intersection exPlain exPlain =
      (((List.range exPlain.bitmap_size).map
        (fun i => popcount8 (exPlain.bitmap i &&& exPlain.bitmap i))).sum : ℚ) /
        ((exPlain.bitmap_size * 8 : ℕ) : ℚ) * 100 := by
  have hwf : ∀ i, exPlain.bitmap i < 256 := fun i => by simp [exPlain]
  exact ⟨hwf, (c9_estimate exPlain exPlain hwf).1 rfl rfl⟩

end ArchBloom
